import Mathlib

/-
Verification development for the templar tiered object-store core.

Each definition is a shallow embedding of a named Go function from the
repository (file and symbol given in its doc comment).  Byte streams are
modelled as lists of naturals; io.Reader chains collapse to functions on
those lists; goroutine/pipe interactions are modelled by explicit outcome
records whose fields record what each side of the pipe consumed and
produced.  int64 values are modelled as Int (overflow is irrelevant to the
properties considered here).
-/

namespace Templar

/-- Model of a byte stream (contents of an object). -/
abbrev Bytes := List Nat

/-! ## LRU eviction policy (src/unnamed/part_007, LRUEvictionPolicy)

The Go structure keeps a doubly-linked recency list (front = MRU) plus a
map from key to list element; the two always track the same set of keys,
so the embedding keeps a single list of entries, with map membership given
by key membership in the list. -/

/-- Model of lruEntry (src/unnamed/part_007): key plus recorded size. -/
structure LRUEntry where
  key : String
  size : Int
deriving DecidableEq, Repr

/-- Model of LRUEvictionPolicy state (src/unnamed/part_007): byte budget,
running total, and the recency-ordered entry list (front = MRU). -/
structure LRUState where
  maxSizeBytes : Int
  currentSize : Int
  order : List LRUEntry
deriving DecidableEq, Repr

/-- Fresh policy as built by NewLRUEvictionPolicy (src/unnamed/part_007). -/
def LRUState.init (maxSizeBytes : Int) : LRUState :=
  { maxSizeBytes := maxSizeBytes, currentSize := 0, order := [] }

/-- Keys currently tracked (the key set of the items map). -/
def LRUState.trackedKeys (p : LRUState) : List String :=
  p.order.map (·.key)

/-- Sum of the sizes of a list of entries. -/
def sizeSum (l : List LRUEntry) : Int :=
  (l.map (·.size)).sum

/-- Model of list.MoveToFront on the recency list: if an entry with the key
is present, move (the first) such entry to the front; otherwise unchanged. -/
def moveToFront (l : List LRUEntry) (key : String) : List LRUEntry :=
  match l.find? (fun e => e.key == key) with
  | none => l
  | some e => e :: l.eraseP (fun e => e.key == key)

/-- Model of LRUEvictionPolicy.Access (src/unnamed/part_007): if the key is
tracked, move its entry to the front. -/
def LRUState.access (p : LRUState) (key : String) : LRUState :=
  { p with order := moveToFront p.order key }

/-- Eviction loop of evictIfNeeded (src/unnamed/part_007) acting on the
recency list REVERSED (so the head here is the back = LRU end): while the
running size exceeds the budget and entries remain, pop the back entry,
subtract its size and record its key.  Returns (evicted keys, new running
size, remaining reversed list). -/
def evictRev (maxSize : Int) : Int → List LRUEntry → List String × Int × List LRUEntry
  | cur, [] => ([], cur, [])
  | cur, e :: rest =>
    if maxSize < cur then
      let r := evictRev maxSize (cur - e.size) rest
      (e.key :: r.1, r.2.1, r.2.2)
    else
      ([], cur, e :: rest)

/-- Model of LRUEvictionPolicy.evictIfNeeded (src/unnamed/part_007):
no-op when maxSizeBytes ≤ 0, otherwise run the pop-tail loop. -/
def LRUState.evictIfNeeded (p : LRUState) : List String × LRUState :=
  if p.maxSizeBytes ≤ 0 then ([], p)
  else
    let r := evictRev p.maxSizeBytes p.currentSize p.order.reverse
    (r.1, { p with currentSize := r.2.1, order := r.2.2.reverse })

/-- Model of LRUEvictionPolicy.Add (src/unnamed/part_007): an already
tracked key is treated as an access (returns no evictions); a new key is
pushed to the front, its size added, and the eviction loop run. -/
def LRUState.add (p : LRUState) (key : String) (size : Int) :
    List String × LRUState :=
  if (p.order.find? (fun e => e.key == key)).isSome then
    ([], { p with order := moveToFront p.order key })
  else
    LRUState.evictIfNeeded
      { p with
        order := { key := key, size := size } :: p.order
        currentSize := p.currentSize + size }

/-- Model of LRUEvictionPolicy.Remove (src/unnamed/part_007): if the key is
tracked, subtract its entry size and delete the entry. -/
def LRUState.remove (p : LRUState) (key : String) : LRUState :=
  match p.order.find? (fun e => e.key == key) with
  | none => p
  | some e =>
    { p with
      currentSize := p.currentSize - e.size
      order := p.order.eraseP (fun e => e.key == key) }

/-- An operation against the eviction policy. -/
inductive LRUOp where
  | access (key : String)
  | add (key : String) (size : Int)
  | remove (key : String)
deriving DecidableEq, Repr

/-- Apply one operation to the policy state (Add discards the returned
eviction list, as callers that only mutate state do). -/
def applyOp (p : LRUState) : LRUOp → LRUState
  | .access k => p.access k
  | .add k s => (p.add k s).2
  | .remove k => p.remove k

/-- Apply a sequence of operations from the given state. -/
def applyOps (p : LRUState) (ops : List LRUOp) : LRUState :=
  ops.foldl applyOp p

/-- Does the operation carry a nonnegative size?  Only Add carries a size. -/
def LRUOp.sizeOk : LRUOp → Bool
  | .add _ s => decide (0 ≤ s)
  | _ => true

/-- Sizes passed to Add in an operation sequence are byte counts, hence
nonnegative (in the program they come from SizeReader, src/unnamed/part_006). -/
def nonnegAdds (ops : List LRUOp) : Prop :=
  ∀ op ∈ ops, op.sizeOk = true

/-! ### Structural lemmas about the LRU embedding -/

theorem trackedKeys_def (p : LRUState) :
    p.trackedKeys = p.order.map (fun e => e.key) := rfl

theorem sizeSum_def (l : List LRUEntry) :
    sizeSum l = (l.map (fun e => e.size)).sum := rfl

theorem sizeSum_nil : sizeSum [] = 0 := rfl

theorem sizeSum_cons (e : LRUEntry) (l : List LRUEntry) :
    sizeSum (e :: l) = e.size + sizeSum l := by
  simp [sizeSum_def]

theorem sizeSum_append (l₁ l₂ : List LRUEntry) :
    sizeSum (l₁ ++ l₂) = sizeSum l₁ + sizeSum l₂ := by
  simp [sizeSum_def]

theorem sizeSum_reverse (l : List LRUEntry) : sizeSum l.reverse = sizeSum l := by
  simp [sizeSum_def, List.sum_reverse]

theorem sizeSum_perm {l₁ l₂ : List LRUEntry} (h : l₁.Perm l₂) :
    sizeSum l₁ = sizeSum l₂ := by
  rw [sizeSum_def, sizeSum_def]
  exact (h.map (fun e => e.size)).sum_eq

theorem find?_perm_eraseP (key : String) (l : List LRUEntry) (e : LRUEntry)
    (h : l.find? (fun x => x.key == key) = some e) :
    l.Perm (e :: l.eraseP (fun x => x.key == key)) := by
  induction l with
  | nil => simp at h
  | cons x xs ih =>
    by_cases hx : (x.key == key) = true
    · have hfx : List.find? (fun x => x.key == key) (x :: xs) = some x :=
        List.find?_cons_of_pos _ hx
      have her : List.eraseP (fun x => x.key == key) (x :: xs) = xs :=
        List.eraseP_cons_of_pos hx
      rw [hfx] at h
      cases h
      rw [her]
    · have hfx : List.find? (fun x => x.key == key) (x :: xs)
          = List.find? (fun x => x.key == key) xs :=
        List.find?_cons_of_neg _ hx
      have her : List.eraseP (fun x => x.key == key) (x :: xs)
          = x :: List.eraseP (fun x => x.key == key) xs :=
        List.eraseP_cons_of_neg hx
      rw [hfx] at h
      rw [her]
      exact ((ih h).cons x).trans (List.Perm.swap e x _)

theorem moveToFront_perm (l : List LRUEntry) (key : String) :
    (moveToFront l key).Perm l := by
  unfold moveToFront
  cases h : l.find? (fun e => e.key == key) with
  | none => exact List.Perm.refl l
  | some e => exact (find?_perm_eraseP key l e h).symm

/-- Characterization of the eviction loop: it splits its input into a popped
prefix and the kept remainder, returns the popped keys, subtracts the popped
sizes from the running total, and stops only when the total is within budget
or nothing is left. -/
theorem evictRev_spec (maxSize : Int) (l : List LRUEntry) :
    ∀ cur : Int, ∃ d : List LRUEntry,
      l = d ++ (evictRev maxSize cur l).2.2 ∧
      (evictRev maxSize cur l).1 = d.map (fun e => e.key) ∧
      (evictRev maxSize cur l).2.1 = cur - sizeSum d ∧
      ((evictRev maxSize cur l).2.2 = [] ∨ (evictRev maxSize cur l).2.1 ≤ maxSize) := by
  induction l with
  | nil =>
    intro cur
    exact ⟨[], by simp [evictRev], by simp [evictRev], by simp [evictRev, sizeSum_nil],
      Or.inl (by simp [evictRev])⟩
  | cons e rest ih =>
    intro cur
    by_cases hc : maxSize < cur
    · obtain ⟨d, hd1, hd2, hd3, hd4⟩ := ih (cur - e.size)
      refine ⟨e :: d, ?_, ?_, ?_, ?_⟩
      · simpa [evictRev, hc] using congrArg (e :: ·) hd1
      · simpa [evictRev, hc] using hd2
      · have h3g : (evictRev maxSize cur (e :: rest)).2.1
            = (evictRev maxSize (cur - e.size) rest).2.1 := by
          simp [evictRev, hc]
        rw [h3g, hd3, sizeSum_cons]
        ring
      · simpa [evictRev, hc] using hd4
    · refine ⟨[], by simp [evictRev, hc], by simp [evictRev, hc],
        by simp [evictRev, hc, sizeSum_nil], Or.inr ?_⟩
      have h3g : (evictRev maxSize cur (e :: rest)).2.1 = cur := by
        simp [evictRev, hc]
      rw [h3g]
      omega


/-- Well-formedness of a policy state reachable in the program: the running
total is the sum of the tracked sizes, tracked keys are distinct, tracked
sizes are nonnegative, and (when a positive budget is set) the total is
within the budget. -/
def goodState (p : LRUState) : Prop :=
  p.currentSize = sizeSum p.order ∧
  p.trackedKeys.Nodup ∧
  (∀ e ∈ p.order, 0 ≤ e.size) ∧
  (0 < p.maxSizeBytes → p.currentSize ≤ p.maxSizeBytes)

theorem goodState_init (maxSize : Int) : goodState (LRUState.init maxSize) := by
  refine ⟨rfl, by simp [trackedKeys_def, LRUState.init], by simp [LRUState.init], ?_⟩
  intro h
  simp only [LRUState.init] at h ⊢
  omega

theorem goodState_access (p : LRUState) (key : String) (h : goodState p) :
    goodState (p.access key) := by
  obtain ⟨h1, h2, h3, h4⟩ := h
  rw [trackedKeys_def] at h2
  have hperm := moveToFront_perm p.order key
  refine ⟨?_, ?_, ?_, h4⟩
  · rw [LRUState.access]
    simpa [sizeSum_perm hperm] using h1
  · rw [trackedKeys_def, LRUState.access]
    exact ((hperm.map (fun e => e.key)).nodup_iff).mpr h2
  · intro e he
    exact h3 e (hperm.mem_iff.mp he)

theorem goodState_remove (p : LRUState) (key : String) (h : goodState p) :
    goodState (p.remove key) := by
  obtain ⟨h1, h2, h3, h4⟩ := h
  rw [trackedKeys_def] at h2
  unfold LRUState.remove
  cases hf : p.order.find? (fun e => e.key == key) with
  | none => exact ⟨h1, by rw [trackedKeys_def]; exact h2, h3, h4⟩
  | some e =>
    have hperm := find?_perm_eraseP key p.order e hf
    have hsum : sizeSum p.order = e.size + sizeSum (p.order.eraseP (fun x => x.key == key)) := by
      simpa [sizeSum_cons] using sizeSum_perm hperm
    have hsub : List.Sublist (p.order.eraseP (fun x => x.key == key)) p.order :=
      List.eraseP_sublist p.order
    refine ⟨by simp; omega, ?_, ?_, ?_⟩
    · rw [trackedKeys_def]
      exact h2.sublist (hsub.map (fun e => e.key))
    · intro x hx
      exact h3 x (hsub.subset hx)
    · intro hmax
      have he : e ∈ p.order := List.mem_of_find?_eq_some hf
      have hse := h3 e he
      have hcur := h4 hmax
      simp only
      omega

/-- Complete behaviour of Add on a well-formed state: the result is again
well-formed and every evicted key is gone from the tracking map. -/
theorem add_spec (p : LRUState) (key : String) (size : Int)
    (h : goodState p) (hs : 0 ≤ size) :
    goodState (p.add key size).2 ∧
      ∀ k ∈ (p.add key size).1, k ∉ (p.add key size).2.trackedKeys := by
  obtain ⟨h1, h2, h3, h4⟩ := h
  rw [trackedKeys_def] at h2
  unfold LRUState.add
  by_cases hf : (p.order.find? (fun e => e.key == key)).isSome
  · -- already tracked: treated as an access, nothing evicted
    rw [if_pos hf]
    have hperm := moveToFront_perm p.order key
    refine ⟨⟨?_, ?_, ?_, h4⟩, by simp⟩
    · simpa [sizeSum_perm hperm] using h1
    · rw [trackedKeys_def]
      exact ((hperm.map (fun e => e.key)).nodup_iff).mpr h2
    · intro e he
      exact h3 e (hperm.mem_iff.mp he)
  · -- fresh key: push front, add its size, then run the eviction loop
    rw [if_neg hf]
    have hfresh : key ∉ p.order.map (fun e => e.key) := by
      intro hmem
      apply hf
      rw [List.find?_isSome]
      obtain ⟨e, he, hek⟩ := List.mem_map.mp hmem
      exact ⟨e, he, by simp [hek]⟩
    set e₀ : LRUEntry := { key := key, size := size } with he₀
    set p₁ : LRUState :=
      { p with order := e₀ :: p.order, currentSize := p.currentSize + size } with hp₁
    have hsum₁ : p₁.currentSize = sizeSum p₁.order := by
      simp only [hp₁, sizeSum_cons, he₀]
      omega
    have hnodup₁ : (p₁.order.map (fun e => e.key)).Nodup := by
      simp only [hp₁, List.map_cons, List.nodup_cons, he₀]
      exact ⟨hfresh, h2⟩
    have hpos₁ : ∀ e ∈ p₁.order, 0 ≤ e.size := by
      intro e he
      simp only [hp₁] at he
      rcases List.mem_cons.mp he with rfl | hmem
      · exact hs
      · exact h3 e hmem
    unfold LRUState.evictIfNeeded
    by_cases hm : p₁.maxSizeBytes ≤ 0
    · rw [if_pos hm]
      refine ⟨⟨hsum₁, by rw [trackedKeys_def]; exact hnodup₁, hpos₁, ?_⟩, by simp⟩
      intro hmx
      have hmx2 : 0 < p₁.maxSizeBytes := hmx
      show p₁.currentSize ≤ p₁.maxSizeBytes
      omega
    · rw [if_neg hm]
      obtain ⟨d, hd1, hd2, hd3, hd4⟩ :=
        evictRev_spec p₁.maxSizeBytes p₁.order.reverse p₁.currentSize
      set r := evictRev p₁.maxSizeBytes p₁.currentSize p₁.order.reverse with hr
      have hsumrev : sizeSum p₁.order.reverse = sizeSum d + sizeSum r.2.2 := by
        rw [hd1, sizeSum_append]
      have hrev := sizeSum_reverse p₁.order
      have hkept : r.2.1 = sizeSum r.2.2 := by omega
      have hrevnodup : (p₁.order.reverse.map (fun e => e.key)).Nodup := by
        rw [List.map_reverse]
        exact List.nodup_reverse.mpr hnodup₁
      have hmapsplit : ((d ++ r.2.2).map (fun e => e.key)).Nodup := by
        rw [← hd1]
        exact hrevnodup
      have hkeptsub : List.Sublist r.2.2 p₁.order.reverse := by
        rw [hd1]
        exact List.sublist_append_right _ _
      have hkeptnodup : (r.2.2.map (fun e => e.key)).Nodup :=
        hmapsplit.sublist ((List.sublist_append_right d r.2.2).map (fun e => e.key))
      refine ⟨⟨?_, ?_, ?_, ?_⟩, ?_⟩
      · simp only
        rw [sizeSum_reverse]
        exact hkept
      · rw [trackedKeys_def]
        simp only
        rw [List.map_reverse]
        exact List.nodup_reverse.mpr hkeptnodup
      · intro e he
        simp only [List.mem_reverse] at he
        exact hpos₁ e (List.mem_reverse.mp (hkeptsub.subset he))
      · intro hmx
        simp only at hmx ⊢
        rcases hd4 with hnil | hle
        · rw [hnil] at hkept
          rw [sizeSum_nil] at hkept
          omega
        · exact hle
      · -- every evicted key has been deleted from the tracking map
        intro k hk hk2
        simp only [trackedKeys_def, List.map_reverse, List.mem_reverse] at hk2
        rw [hd2] at hk
        rw [List.map_append] at hmapsplit
        exact (List.disjoint_of_nodup_append hmapsplit) hk hk2

theorem goodState_applyOp (p : LRUState) (op : LRUOp)
    (h : goodState p) (hop : op.sizeOk = true) : goodState (applyOp p op) := by
  cases op with
  | access k => exact goodState_access p k h
  | add k s =>
    have hs : 0 ≤ s := by simpa [LRUOp.sizeOk] using hop
    exact (add_spec p k s h hs).1
  | remove k => exact goodState_remove p k h

theorem goodState_foldl (ops : List LRUOp) :
    ∀ p : LRUState, goodState p → (∀ op ∈ ops, op.sizeOk = true) →
      goodState (ops.foldl applyOp p) := by
  induction ops with
  | nil => intro p hp _; simpa using hp
  | cons op rest ih =>
    intro p hp h
    rw [List.foldl_cons]
    exact ih _ (goodState_applyOp p op hp (h op (List.mem_cons_self _ _)))
      (fun x hx => h x (List.mem_cons_of_mem _ hx))

theorem goodState_applyOps (maxSize : Int) (ops : List LRUOp) (h : nonnegAdds ops) :
    goodState (applyOps (LRUState.init maxSize) ops) :=
  goodState_foldl ops _ (goodState_init maxSize) h

theorem evictIfNeeded_maxSizeBytes (p : LRUState) :
    p.evictIfNeeded.2.maxSizeBytes = p.maxSizeBytes := by
  unfold LRUState.evictIfNeeded
  by_cases hm : p.maxSizeBytes ≤ 0 <;> simp [hm]

theorem add_maxSizeBytes (p : LRUState) (key : String) (size : Int) :
    (p.add key size).2.maxSizeBytes = p.maxSizeBytes := by
  unfold LRUState.add
  by_cases hf : (p.order.find? (fun e => e.key == key)).isSome
  · simp [hf]
  · rw [if_neg hf, evictIfNeeded_maxSizeBytes]

theorem applyOp_maxSizeBytes (p : LRUState) (op : LRUOp) :
    (applyOp p op).maxSizeBytes = p.maxSizeBytes := by
  cases op with
  | access k => rfl
  | add k s => exact add_maxSizeBytes p k s
  | remove k =>
    rw [applyOp]
    unfold LRUState.remove
    cases p.order.find? (fun e => e.key == k) <;> rfl

theorem applyOps_maxSizeBytes (maxSize : Int) (ops : List LRUOp) :
    (applyOps (LRUState.init maxSize) ops).maxSizeBytes = maxSize := by
  rw [applyOps]
  have : ∀ p : LRUState, (ops.foldl applyOp p).maxSizeBytes = p.maxSizeBytes := by
    induction ops with
    | nil => intro p; rfl
    | cons op rest ih =>
      intro p
      rw [List.foldl_cons, ih, applyOp_maxSizeBytes]
  rw [this]
  rfl

instance (ops : List LRUOp) : Decidable (nonnegAdds ops) := by
  unfold nonnegAdds
  exact List.decidableBAll _ ops

theorem evictIfNeeded_order_sublist (p : LRUState) :
    List.Sublist p.evictIfNeeded.2.order p.order := by
  unfold LRUState.evictIfNeeded
  by_cases hm : p.maxSizeBytes ≤ 0
  · rw [if_pos hm]
  · rw [if_neg hm]
    obtain ⟨d, hd1, _, _, _⟩ :=
      evictRev_spec p.maxSizeBytes p.order.reverse p.currentSize
    have hsub : List.Sublist
        (evictRev p.maxSizeBytes p.currentSize p.order.reverse).2.2 p.order.reverse := by
      nth_rewrite 2 [hd1]
      exact List.sublist_append_right _ _
    have hrev := hsub.reverse
    rwa [List.reverse_reverse] at hrev

theorem add_trackedKeys_nodup (p : LRUState) (key : String) (size : Int)
    (h : p.trackedKeys.Nodup) : (p.add key size).2.trackedKeys.Nodup := by
  rw [trackedKeys_def] at h
  unfold LRUState.add
  by_cases hf : (p.order.find? (fun e => e.key == key)).isSome
  · rw [if_pos hf, trackedKeys_def]
    exact (((moveToFront_perm p.order key).map (fun e => e.key)).nodup_iff).mpr h
  · rw [if_neg hf]
    have hfresh : key ∉ p.order.map (fun e => e.key) := by
      intro hmem
      apply hf
      rw [List.find?_isSome]
      obtain ⟨e, he, hek⟩ := List.mem_map.mp hmem
      exact ⟨e, he, by simp [hek]⟩
    set p₁ : LRUState :=
      { p with order := { key := key, size := size } :: p.order
               currentSize := p.currentSize + size } with hp₁
    have hnodup₁ : (p₁.order.map (fun e => e.key)).Nodup := by
      simp only [hp₁, List.map_cons, List.nodup_cons]
      exact ⟨hfresh, h⟩
    rw [trackedKeys_def]
    exact hnodup₁.sublist ((evictIfNeeded_order_sublist p₁).map (fun e => e.key))

theorem trackedKeys_nodup_applyOp (p : LRUState) (op : LRUOp)
    (h : p.trackedKeys.Nodup) : (applyOp p op).trackedKeys.Nodup := by
  cases op with
  | access k =>
    rw [trackedKeys_def] at h ⊢
    exact (((moveToFront_perm p.order k).map (fun e => e.key)).nodup_iff).mpr h
  | add k s => exact add_trackedKeys_nodup p k s h
  | remove k =>
    rw [trackedKeys_def] at h ⊢
    rw [applyOp]
    unfold LRUState.remove
    cases p.order.find? (fun e => e.key == k) with
    | none => exact h
    | some e => exact h.sublist ((List.eraseP_sublist p.order).map (fun e => e.key))

theorem trackedKeys_nodup_applyOps (maxSize : Int) (ops : List LRUOp) :
    (applyOps (LRUState.init maxSize) ops).trackedKeys.Nodup := by
  rw [applyOps]
  have hgen : ∀ p : LRUState, p.trackedKeys.Nodup → (ops.foldl applyOp p).trackedKeys.Nodup := by
    induction ops with
    | nil => intro p hp; simpa using hp
    | cons op rest ih =>
      intro p hp
      rw [List.foldl_cons]
      exact ih _ (trackedKeys_nodup_applyOp p op hp)
  exact hgen _ (by simp [trackedKeys_def, LRUState.init])

/-- Behaviour of Add on a key already tracked by a state with distinct keys:
no eviction, the running total is unchanged, the entries are merely permuted,
the key still has exactly one entry, and the entry moved to the front is the
previously tracked one (hence it keeps its previously recorded size). -/
theorem add_existing_spec (p : LRUState) (key : String) (size : Int)
    (hnd : p.trackedKeys.Nodup) (hmem : key ∈ p.trackedKeys) :
    (p.add key size).1 = [] ∧
    (p.add key size).2.currentSize = p.currentSize ∧
    (p.add key size).2.order.Perm p.order ∧
    (p.add key size).2.order.countP (fun e => e.key == key) = 1 ∧
    ∃ e, (p.add key size).2.order.head? = some e ∧ e.key = key ∧
      p.order.find? (fun x => x.key == key) = some e := by
  rw [trackedKeys_def] at hnd hmem
  have hf : (p.order.find? (fun e => e.key == key)).isSome := by
    rw [List.find?_isSome]
    obtain ⟨e, he, hek⟩ := List.mem_map.mp hmem
    exact ⟨e, he, by simp [hek]⟩
  obtain ⟨e₁, hfe⟩ := Option.isSome_iff_exists.mp hf
  have he₁key : e₁.key = key := by simpa using List.find?_some hfe
  have hperm : (moveToFront p.order key).Perm p.order := moveToFront_perm p.order key
  have hcount : p.order.countP (fun e => e.key == key)
      = (p.order.map (fun e => e.key)).count key := by
    rw [List.count, List.countP_map]
    rfl
  unfold LRUState.add
  rw [if_pos hf]
  refine ⟨rfl, rfl, hperm, ?_, ?_⟩
  · rw [hperm.countP_eq, hcount]
    exact List.count_eq_one_of_mem hnd hmem
  · refine ⟨e₁, ?_, he₁key, hfe⟩
    show (moveToFront p.order key).head? = some e₁
    unfold moveToFront
    rw [hfe]
    rfl

/-- C4: starting from a fresh policy with positive byte budget, after any
sequence of Access/Add/Remove operations followed by an Add, the running
total is at most the budget, the total equals the sum of the sizes still
tracked (popped entries had their sizes subtracted), and every key returned
by the eviction loop has been deleted from the tracking map. -/
theorem lru_add_within_budget (maxSize : Int) (ops : List LRUOp) (key : String) (size : Int)
    (hmax : 0 < maxSize) (hops : nonnegAdds ops) (hsize : 0 ≤ size) :
    ((applyOps (LRUState.init maxSize) ops).add key size).2.currentSize ≤ maxSize ∧
    ((applyOps (LRUState.init maxSize) ops).add key size).2.currentSize
      = sizeSum ((applyOps (LRUState.init maxSize) ops).add key size).2.order ∧
    ∀ k ∈ ((applyOps (LRUState.init maxSize) ops).add key size).1,
      k ∉ ((applyOps (LRUState.init maxSize) ops).add key size).2.trackedKeys := by
  have hgood := goodState_applyOps maxSize ops hops
  obtain ⟨hg, hk⟩ := add_spec (applyOps (LRUState.init maxSize) ops) key size hgood hsize
  obtain ⟨g1, g2, g3, g4⟩ := hg
  have hmaxeq : ((applyOps (LRUState.init maxSize) ops).add key size).2.maxSizeBytes
      = maxSize := by
    rw [add_maxSizeBytes, applyOps_maxSizeBytes]
  refine ⟨?_, g1, hk⟩
  have h4g := g4 (by rw [hmaxeq]; exact hmax)
  omega

/-- Witness for C4 at a concrete input: budget 10, history adds "a" and "b"
of size 6 each, then a third add of size 6. -/
theorem lru_add_within_budget_witness :
    ((0 : Int) < 10 ∧ nonnegAdds [LRUOp.add "a" 6, LRUOp.add "b" 6] ∧ (0 : Int) ≤ 6) ∧
    (((applyOps (LRUState.init 10) [LRUOp.add "a" 6, LRUOp.add "b" 6]).add "c" 6).2.currentSize ≤ 10 ∧
    ((applyOps (LRUState.init 10) [LRUOp.add "a" 6, LRUOp.add "b" 6]).add "c" 6).2.currentSize
      = sizeSum ((applyOps (LRUState.init 10) [LRUOp.add "a" 6, LRUOp.add "b" 6]).add "c" 6).2.order ∧
    ∀ k ∈ ((applyOps (LRUState.init 10) [LRUOp.add "a" 6, LRUOp.add "b" 6]).add "c" 6).1,
      k ∉ ((applyOps (LRUState.init 10) [LRUOp.add "a" 6, LRUOp.add "b" 6]).add "c" 6).2.trackedKeys) :=
  ⟨⟨by decide, by decide, by decide⟩,
    lru_add_within_budget 10 [LRUOp.add "a" 6, LRUOp.add "b" 6] "c" 6
      (by decide) (by decide) (by decide)⟩

/-- C8: if a key is already tracked after an arbitrary operation history, a
second Add of that key (with any size) acts as an access: no eviction, the
running total unchanged, the entry set merely permuted with a single entry
for the key, and the front entry is the previously tracked entry for the
key, so its recorded size is the first insertion size. -/
theorem lru_readd_acts_as_access (maxSize : Int) (ops : List LRUOp) (key : String) (size : Int)
    (hmem : key ∈ (applyOps (LRUState.init maxSize) ops).trackedKeys) :
    ((applyOps (LRUState.init maxSize) ops).add key size).1 = [] ∧
    ((applyOps (LRUState.init maxSize) ops).add key size).2.currentSize
      = (applyOps (LRUState.init maxSize) ops).currentSize ∧
    ((applyOps (LRUState.init maxSize) ops).add key size).2.order.Perm
      (applyOps (LRUState.init maxSize) ops).order ∧
    ((applyOps (LRUState.init maxSize) ops).add key size).2.order.countP
      (fun e => e.key == key) = 1 ∧
    ∃ e, ((applyOps (LRUState.init maxSize) ops).add key size).2.order.head? = some e ∧
      e.key = key ∧
      (applyOps (LRUState.init maxSize) ops).order.find? (fun x => x.key == key) = some e :=
  add_existing_spec (applyOps (LRUState.init maxSize) ops) key size
    (trackedKeys_nodup_applyOps maxSize ops) hmem

/-- Witness for C8 at a concrete input: key "a" inserted with size 5, then
re-added with size 7. -/
theorem lru_readd_acts_as_access_witness :
    ("a" ∈ (applyOps (LRUState.init 100) [LRUOp.add "a" 5]).trackedKeys) ∧
    (((applyOps (LRUState.init 100) [LRUOp.add "a" 5]).add "a" 7).1 = [] ∧
    ((applyOps (LRUState.init 100) [LRUOp.add "a" 5]).add "a" 7).2.currentSize
      = (applyOps (LRUState.init 100) [LRUOp.add "a" 5]).currentSize ∧
    ((applyOps (LRUState.init 100) [LRUOp.add "a" 5]).add "a" 7).2.order.Perm
      (applyOps (LRUState.init 100) [LRUOp.add "a" 5]).order ∧
    ((applyOps (LRUState.init 100) [LRUOp.add "a" 5]).add "a" 7).2.order.countP
      (fun e => e.key == "a") = 1 ∧
    ∃ e, ((applyOps (LRUState.init 100) [LRUOp.add "a" 5]).add "a" 7).2.order.head? = some e ∧
      e.key = "a" ∧
      (applyOps (LRUState.init 100) [LRUOp.add "a" 5]).order.find?
        (fun x => x.key == "a") = some e) :=
  ⟨by decide, lru_readd_acts_as_access 100 [LRUOp.add "a" 5] "a" 7 (by decide)⟩

/-! ## Tiered cache client (src/internal/client/objectstore/cache/cache.go)

The pipe/goroutine structure of CacheClient collapses to a functional
outcome record: the tee mirrors into the pipe exactly the bytes the primary
side reads, so the byte list available to the cache task is determined by
how far the primary upload (or the caller of Download) got.  Backend
behaviour is a parameter: an Option Nat that is none when the backend call
succeeds after consuming its whole input, and some j when the call fails
after consuming j bytes. -/

/-- Result of the cache-side task of CacheClient.Upload / Download backfill
(CacheClient.cacheUpload plus the drain in the spawning goroutine). -/
structure CacheTaskResult where
  uploadConsumed : Nat
  drainConsumed : Nat
  cacheStored : Option Bytes
  addCalls : List (String × Int)
  evictDeletes : List String
  err : Option String
  lru : LRUState
deriving Repr

/-- Model of CacheClient.cacheUpload (cache.go): wrap the pipe reader in a
SizeReader (src/unnamed/part_006), run cache.Upload on it, and on success
call EvictionPolicy.Add with the observed byte count and issue a cache
delete for every returned eviction key.  On cache.Upload failure, Add is
never called; the caller (the goroutine in Upload/Download) then drains the
remaining bytes of the pipe.  avail is the byte list the pipe carries;
cacheFail = some j means cache.Upload fails after reading j bytes. -/
def cacheUploadRun (lru : LRUState) (key : String) (avail : Bytes)
    (cacheFail : Option Nat) : CacheTaskResult :=
  match cacheFail with
  | some j =>
    { uploadConsumed := min j avail.length
      drainConsumed := avail.length - min j avail.length
      cacheStored := none
      addCalls := []
      evictDeletes := []
      err := some "upload to cache"
      lru := lru }
  | none =>
    let r := lru.add key (Int.ofNat avail.length)
    { uploadConsumed := avail.length
      drainConsumed := 0
      cacheStored := some avail
      addCalls := [(key, Int.ofNat avail.length)]
      evictDeletes := r.1
      err := none
      lru := r.2 }

/-- Outcome of CacheClient.Upload.  teeConsumed records the bytes that the
primary upload pulled through the tee reader, i.e. exactly the bytes any
reader wrapped around the content (such as the hash tee of the push
pipeline) observed. -/
structure UploadOutcome where
  result : Except String Unit
  primaryStored : Option Bytes
  teeConsumed : Bytes
  cacheTask : CacheTaskResult
deriving Repr

/-- Model of CacheClient.Upload (cache.go): the tee mirrors into the pipe
every byte the primary upload reads.  primaryFail = none: primary consumes
the whole content and succeeds, pw.Close signals EOF, and the cache task
sees exactly the content.  primaryFail = some k: primary fails after k
bytes, pw.CloseWithError propagates the failure to the pipe, the cache task
ends in error after receiving (at most) the teed prefix, no Add happens,
and Upload returns the primary error. -/
def CacheClient.upload (lru : LRUState) (key : String) (content : Bytes)
    (primaryFail : Option Nat) (cacheFail : Option Nat) : UploadOutcome :=
  match primaryFail with
  | none =>
    { result := Except.ok ()
      primaryStored := some content
      teeConsumed := content
      cacheTask := cacheUploadRun lru key content cacheFail }
  | some k =>
    { result := Except.error "upload to primary"
      primaryStored := none
      teeConsumed := content.take k
      cacheTask :=
        { uploadConsumed := min k content.length
          drainConsumed := 0
          cacheStored := none
          addCalls := []
          evictDeletes := []
          err := some "upload to cache"
          lru := lru } }

/-- State of the teePipeReadCloser returned by the Download miss path
(cache.go): whether the pipe writer has been closed and whether the primary
reader has been closed. -/
structure TeePipeState where
  pwClosed : Bool
  primaryReaderClosed : Bool
deriving DecidableEq, Repr

/-- Model of teePipeReadCloser.Close (cache.go): it closes the pipe writer
and nothing else. -/
def teePipeClose (s : TeePipeState) : TeePipeState :=
  { s with pwClosed := true }

/-- Iterate Close n times on the reader state. -/
def teePipeCloseN : Nat → TeePipeState → TeePipeState
  | 0, s => s
  | n + 1, s => teePipeCloseN n (teePipeClose s)

/-- Outcome of CacheClient.Download. -/
structure DownloadOutcome where
  result : Except String Unit
  callerBytes : Bytes
  accessCalls : List String
  readerState : TeePipeState
  cacheTask : Option CacheTaskResult
deriving Repr

/-- Model of CacheClient.Download (cache.go).  cacheHit is the object the
cache backend returns (none = cache miss), primaryObj the object in the
primary backend.  On a hit the cache reader is returned directly and the
eviction policy is notified of an access.  On a miss with the object in
primary, the primary reader is teed into a pipe whose reader feeds the
backfill task; the caller reads readCount bytes and then calls Close
closeCount times on the returned teePipeReadCloser.  The backfill task
observes EOF (and hence completes) only once the pipe writer is closed. -/
def CacheClient.download (lru : LRUState) (key : String) (cacheHit : Option Bytes)
    (primaryObj : Option Bytes) (readCount : Nat) (closeCount : Nat)
    (cacheFail : Option Nat) : DownloadOutcome :=
  match cacheHit with
  | some obj =>
    { result := Except.ok ()
      callerBytes := obj.take readCount
      accessCalls := [key]
      readerState := { pwClosed := false, primaryReaderClosed := false }
      cacheTask := none }
  | none =>
    match primaryObj with
    | none =>
      { result := Except.error "get from primary"
        callerBytes := []
        accessCalls := []
        readerState := { pwClosed := false, primaryReaderClosed := false }
        cacheTask := none }
    | some obj =>
      let got := obj.take readCount
      let st := teePipeCloseN closeCount
        { pwClosed := false, primaryReaderClosed := false }
      { result := Except.ok ()
        callerBytes := got
        accessCalls := []
        readerState := st
        cacheTask :=
          if st.pwClosed then some (cacheUploadRun lru key got cacheFail) else none }

/-- Outcome of CacheClient.Delete. -/
structure DeleteOutcome where
  result : Except String Unit
  removeCalled : Bool
  primaryDeleteAttempted : Bool
  lru : LRUState
deriving Repr

/-- Model of CacheClient.Delete (cache.go): delete from cache first; on
cache failure log and continue without touching the eviction policy, on
cache success call EvictionPolicy.Remove; then delete from primary and
propagate only the primary error. -/
def CacheClient.delete (lru : LRUState) (key : String)
    (cacheDelete : Except String Unit) (primaryDelete : Except String Unit) :
    DeleteOutcome :=
  let cacheOk := match cacheDelete with | Except.ok _ => true | Except.error _ => false
  let lru1 := if cacheOk then lru.remove key else lru
  match primaryDelete with
  | Except.error e =>
    { result := Except.error ("delete from primary: " ++ e)
      removeCalled := cacheOk
      primaryDeleteAttempted := true
      lru := lru1 }
  | Except.ok _ =>
    { result := Except.ok ()
      removeCalled := cacheOk
      primaryDeleteAttempted := true
      lru := lru1 }

theorem teePipeClose_primaryReaderClosed (s : TeePipeState) :
    (teePipeClose s).primaryReaderClosed = s.primaryReaderClosed := rfl

theorem teePipeCloseN_succ (n : Nat) (s : TeePipeState) :
    teePipeCloseN (n + 1) s = { s with pwClosed := true } := by
  induction n generalizing s with
  | zero => rfl
  | succ m ih =>
    show teePipeCloseN (m + 1) (teePipeClose s) = { s with pwClosed := true }
    rw [ih (teePipeClose s)]
    rfl

/-- C2: when the primary upload succeeds and the cache-side upload fails
(after j bytes), CacheClient.Upload still returns success, the eviction
policy receives no Add for the key, and between cache.Upload and the
explicit drain the cache task consumes the entire pipe contents, so the tee
feeding the primary upload is never left blocked. -/
theorem upload_cache_failure_swallowed (lru : LRUState) (key : String)
    (content : Bytes) (j : Nat) :
    (CacheClient.upload lru key content none (some j)).result = Except.ok () ∧
    (CacheClient.upload lru key content none (some j)).cacheTask.addCalls = [] ∧
    (CacheClient.upload lru key content none (some j)).cacheTask.uploadConsumed
      + (CacheClient.upload lru key content none (some j)).cacheTask.drainConsumed
      = content.length := by
  refine ⟨rfl, rfl, ?_⟩
  show min j content.length + (content.length - min j content.length) = content.length
  omega

/-- C3: on a Download of a key that misses the cache but is present in
primary, the caller receives exactly the primary bytes (the prefix read
before Close), Close closes the pipe writer, and the backfill task caches
the partial bytes received before Close and registers them in the eviction
policy with the observed byte count. -/
theorem download_miss_caches_observed_bytes (lru : LRUState) (key : String)
    (obj : Bytes) (readCount : Nat) :
    (CacheClient.download lru key none (some obj) readCount 1 none).result
      = Except.ok () ∧
    (CacheClient.download lru key none (some obj) readCount 1 none).callerBytes
      = obj.take readCount ∧
    (CacheClient.download lru key none (some obj) readCount 1 none).readerState.pwClosed
      = true ∧
    ∃ ct, (CacheClient.download lru key none (some obj) readCount 1 none).cacheTask
        = some ct ∧
      ct.cacheStored = some (obj.take readCount) ∧
      ct.addCalls = [(key, Int.ofNat (obj.take readCount).length)] := by
  refine ⟨rfl, rfl, rfl, cacheUploadRun lru key (obj.take readCount) none, rfl, rfl, rfl⟩

/-- C10: on the Download miss path, no matter how many bytes the caller
read and how many times it calls Close, the primary backend reader is never
closed by the returned reader; Close (one or more calls) closes exactly the
pipe writer. -/
theorem download_close_leaves_primary_reader_open (lru : LRUState) (key : String)
    (obj : Bytes) (readCount closeCount : Nat) (cacheFail : Option Nat) :
    ((CacheClient.download lru key none (some obj) readCount closeCount
      cacheFail).readerState).primaryReaderClosed = false ∧
    ((CacheClient.download lru key none (some obj) readCount closeCount
      cacheFail).readerState).pwClosed = decide (1 ≤ closeCount) := by
  cases closeCount with
  | zero => exact ⟨rfl, rfl⟩
  | succ n =>
    have hst := teePipeCloseN_succ n
      { pwClosed := false, primaryReaderClosed := false }
    constructor
    · show (teePipeCloseN (n + 1)
        { pwClosed := false, primaryReaderClosed := false }).primaryReaderClosed = false
      rw [hst]
    · show (teePipeCloseN (n + 1)
        { pwClosed := false, primaryReaderClosed := false }).pwClosed = decide (1 ≤ n + 1)
      rw [hst]
      simp

/-- C7: CacheClient.Delete always attempts the primary delete (a cache
delete failure is only logged), a primary delete failure is propagated to
the caller while primary success yields success, and EvictionPolicy.Remove
is invoked exactly when the cache delete succeeded. -/
theorem delete_attempts_primary_and_tracks_cache (lru : LRUState) (key : String)
    (cd pd : Except String Unit) :
    (CacheClient.delete lru key cd pd).primaryDeleteAttempted = true ∧
    ((CacheClient.delete lru key cd pd).removeCalled = true ↔ ∃ u, cd = Except.ok u) ∧
    (∀ e, pd = Except.error e →
      (CacheClient.delete lru key cd pd).result
        = Except.error ("delete from primary: " ++ e)) ∧
    (pd = Except.ok () →
      (CacheClient.delete lru key cd pd).result = Except.ok ()) := by
  cases cd with
  | ok u => cases pd <;> simp [CacheClient.delete]
  | error ce => cases pd <;> simp [CacheClient.delete]

/-- Witness for C7 at a concrete input: the cache delete fails but the
primary delete succeeds, so Delete succeeds, Remove is not called, and the
primary delete was attempted. -/
theorem delete_attempts_primary_and_tracks_cache_witness :
    (CacheClient.delete (LRUState.init 5) "k" (Except.error "cache gone")
      (Except.ok ())).result = Except.ok () ∧
    (CacheClient.delete (LRUState.init 5) "k" (Except.error "cache gone")
      (Except.ok ())).primaryDeleteAttempted = true :=
  ⟨(delete_attempts_primary_and_tracks_cache (LRUState.init 5) "k"
      (Except.error "cache gone") (Except.ok ())).2.2.2 rfl,
   (delete_attempts_primary_and_tracks_cache (LRUState.init 5) "k"
      (Except.error "cache gone") (Except.ok ())).1⟩

/-! ## Per-key sync wrapper (src/internal/client/objectstore/sync/sync.go)
and LockedReadCloser (src/unnamed/part_006)

The per-key sync.RWMutex is modelled by its reader count.  In Go,
RUnlock on an RWMutex with no active readers is a fatal runtime error;
the model records that as a fault flag. -/

/-- Model of the reader side of a sync.RWMutex: number of readers holding
the lock, plus a flag set when RUnlock is called with no readers held
(fatal in Go). -/
structure RWLockState where
  readers : Nat
  faulted : Bool
deriving DecidableEq, Repr

/-- Model of RWMutex.RLock. -/
def RWLockState.rlock (l : RWLockState) : RWLockState :=
  { l with readers := l.readers + 1 }

/-- Model of RWMutex.RUnlock: releasing with no readers held is a fault. -/
def RWLockState.runlock (l : RWLockState) : RWLockState :=
  if l.readers = 0 then { l with faulted := true }
  else { l with readers := l.readers - 1 }

/-- Model of LockedReadCloser.Close (src/unnamed/part_006): close the inner
reader, then RUnlock the lock.  Every call releases the lock; there is no
guard against repeated Close calls. -/
def LockedReadCloser.close (l : RWLockState) : RWLockState :=
  l.runlock

/-- Iterate Close n times. -/
def lockedCloseN : Nat → RWLockState → RWLockState
  | 0, l => l
  | n + 1, l => lockedCloseN n (LockedReadCloser.close l)

/-- Model of SyncClient.Download (sync.go): take the read lock, run the
backend download; on backend error release the lock and propagate, on
success return a LockedReadCloser that still holds the lock. -/
def SyncClient.download (lock : RWLockState) (backend : Except String Unit) :
    RWLockState × Except String Unit :=
  let l1 := lock.rlock
  match backend with
  | Except.error e => (l1.runlock, Except.error ("download: " ++ e))
  | Except.ok _ => (l1, Except.ok ())

/-- C5 counterexample: start from a lock with one reader held and a
successful backend download.  The claim predicts that any number of Close
calls releases the read lock exactly once, i.e. the count returns to 1.
After two Close calls the count is 0, not 1: LockedReadCloser.Close calls
RUnlock unconditionally on every invocation. -/
theorem sync_download_double_close_counterexample :
    (lockedCloseN 2 (SyncClient.download { readers := 1, faulted := false }
      (Except.ok ())).1).readers = 0 ∧
    ¬ (lockedCloseN 2 (SyncClient.download { readers := 1, faulted := false }
      (Except.ok ())).1).readers = 1 := by
  decide

/-- C5 (amended): Download acquires the per-key read lock; if the backend
returns an error the lock is released before the error is propagated
(the lock state is restored); on success each call to Close on the
returned reader releases the read lock once, so a successful Download
followed by exactly one Close restores the lock state. -/
theorem sync_download_lock_discipline (lock : RWLockState) :
    (∀ e : String,
      (SyncClient.download lock (Except.error e)).1 = lock ∧
      (SyncClient.download lock (Except.error e)).2
        = Except.error ("download: " ++ e)) ∧
    ((SyncClient.download lock (Except.ok ())).1).readers = lock.readers + 1 ∧
    lockedCloseN 1 (SyncClient.download lock (Except.ok ())).1 = lock := by
  refine ⟨?_, rfl, ?_⟩
  · intro e
    constructor
    · show (lock.rlock).runlock = lock
      simp [RWLockState.rlock, RWLockState.runlock]
    · rfl
  · show LockedReadCloser.close (lock.rlock) = lock
    simp [LockedReadCloser.close, RWLockState.rlock, RWLockState.runlock]

/-! ## Metadata store and push pipeline (src/internal/service/push.go)

The metadata store is modelled as lists of rows; GetTemplateVersion is a
lookup by (templateID, versionNumber) and CreateTemplateVersion enforces
the unique index on that pair (migration 0001_init). -/

/-- Model of a template_versions row. -/
structure TemplateVersionRow where
  templateID : String
  versionNumber : Int
  objectKey : String
  fileSize : Int
  fileHash : String
deriving DecidableEq, Repr

/-- Model of a jobs row (the fields the push pipeline touches). -/
structure JobRow where
  jobType : String
  templateID : String
  versionNumber : Int
  status : String
  progress : Int
  errorMessage : Option String
deriving DecidableEq, Repr

/-- Model of the metadata store. -/
structure Storage where
  templates : List String
  versions : List TemplateVersionRow
  jobs : List JobRow
deriving DecidableEq, Repr

/-- Model of db.GetTemplateVersion: lookup by (templateID, versionNumber). -/
def getTemplateVersion (st : Storage) (tid : String) (ver : Int) :
    Option TemplateVersionRow :=
  st.versions.find? (fun r => r.templateID == tid && r.versionNumber == ver)

/-- Model of the GetTemplate / CreateTemplate-on-ErrNoRows step of Push:
ensure a template row with id (and name) equal to tid exists. -/
def ensureTemplate (st : Storage) (tid : String) : Storage :=
  if st.templates.contains tid then st
  else { st with templates := st.templates ++ [tid] }

/-- Model of db.CreateTemplateVersion under the unique index on
(template_id, version_number): inserting a duplicate pair fails. -/
def createTemplateVersion (st : Storage) (row : TemplateVersionRow) :
    Except String Storage :=
  match getTemplateVersion st row.templateID row.versionNumber with
  | some _ => Except.error "unique constraint violation"
  | none => Except.ok { st with versions := st.versions ++ [row] }

/-- Model of the Job row created by Push (status pending, progress 0). -/
def pendingJob (tid : String) (ver : Int) : JobRow :=
  { jobType := "template.push", templateID := tid, versionNumber := ver
    status := "pending", progress := 0, errorMessage := none }

/-- Model of model.Error (src/internal/model/error.go). -/
structure ModelError where
  code : String
  message : String
deriving DecidableEq, Repr

/-- Error built by Push for a duplicate (templateID, version) pair:
model.NewError("template_version.already_exists", ...).Fmt(tid, version). -/
def alreadyExistsError (tid : String) (ver : Int) : ModelError :=
  { code := "template_version.already_exists"
    message := "Template " ++ tid ++ " version " ++ toString ver ++ " already exists" }

/-- Model of getKey (src/unnamed/part_005): fmt.Sprintf with the canonical
object key format. -/
def getKey (tid : String) (ver : Int) : String :=
  "templates/" ++ tid ++ "/" ++ toString ver

/-- Outcome of the background job body of Push. -/
structure JobRunOutcome where
  storage : Storage
  jobStatus : String
  primaryStored : Option Bytes
  lru : LRUState
deriving Repr

/-- Model of the jobFn body of the transactional Push variant
(src/internal/service/push.go, Service.Push, lines 88-170): open the file,
tee it through a BLAKE3 hasher and a progress counter into the object-store
Upload; on success hex-encode the hasher state over exactly the consumed
bytes and insert the TemplateVersion row; any failure marks the job error,
otherwise the job completes.  hashHex abstracts hex(blake3(·)) (the zeebo
blake3 library is outside the repository); jobStatus abstracts the final
UpdateJob status written for this job row. -/
def Service.pushJobRun (hashHex : Bytes → String) (lru : LRUState) (st : Storage)
    (tid : String) (ver : Int) (fileBytes : Bytes) (declaredSize : Int)
    (openFail : Bool) (primaryFail cacheFail : Option Nat) : JobRunOutcome :=
  if openFail then
    { storage := st, jobStatus := "error", primaryStored := none, lru := lru }
  else
    let up := CacheClient.upload lru (getKey tid ver) fileBytes primaryFail cacheFail
    match up.result with
    | Except.error _ =>
      { storage := st, jobStatus := "error"
        primaryStored := up.primaryStored, lru := up.cacheTask.lru }
    | Except.ok _ =>
      let hashStr := hashHex up.teeConsumed
      match createTemplateVersion st
        { templateID := tid, versionNumber := ver, objectKey := getKey tid ver
          fileSize := declaredSize, fileHash := hashStr } with
      | Except.error _ =>
        { storage := st, jobStatus := "error"
          primaryStored := up.primaryStored, lru := up.cacheTask.lru }
      | Except.ok st2 =>
        { storage := st2, jobStatus := "completed"
          primaryStored := up.primaryStored, lru := up.cacheTask.lru }

/-- Model of the synchronous part of the transactional Push variant
(src/internal/service/push.go, Service.Push starting line 29): inside a
transaction, ensure the template, check for an existing (templateID,
version) row — failing with template_version.already_exists and rolling the
transaction back — otherwise create the pending Job row and commit (the
upload itself is the enqueued jobFn, modelled by Service.pushJobRun). -/
def Service.pushTx (st : Storage) (tid : String) (ver : Int) :
    Storage × Except ModelError Unit :=
  let tx1 := ensureTemplate st tid
  match getTemplateVersion tx1 tid ver with
  | some _ => (st, Except.error (alreadyExistsError tid ver))
  | none => ({ tx1 with jobs := tx1.jobs ++ [pendingJob tid ver] }, Except.ok ())

/-- Model of the metadata phase of the non-transactional Push variant
(src/internal/service/push.go, Service.Push starting line 203): create the
pending Job row first (visible immediately), ensure the template, then
check for an existing (templateID, version) row and fail with
template_version.already_exists; on the fresh path the variant continues
inline with the same upload body modelled by Service.pushJobRun. -/
def Service.pushDirectCheck (st : Storage) (tid : String) (ver : Int) :
    Storage × Except ModelError Unit :=
  let st1 := { st with jobs := st.jobs ++ [pendingJob tid ver] }
  let st2 := ensureTemplate st1 tid
  match getTemplateVersion st2 tid ver with
  | some _ => (st2, Except.error (alreadyExistsError tid ver))
  | none => (st2, Except.ok ())

theorem ensureTemplate_versions (st : Storage) (tid : String) :
    (ensureTemplate st tid).versions = st.versions := by
  unfold ensureTemplate
  by_cases h : st.templates.contains tid = true
  · rw [if_pos h]
  · rw [if_neg h]

theorem getTemplateVersion_ensure (st : Storage) (tid₀ tid : String) (ver : Int) :
    getTemplateVersion (ensureTemplate st tid₀) tid ver
      = getTemplateVersion st tid ver := by
  unfold getTemplateVersion
  rw [ensureTemplate_versions]

theorem find?_append_of_none {α : Type} (p : α → Bool) (l₁ l₂ : List α)
    (h : l₁.find? p = none) : (l₁ ++ l₂).find? p = l₂.find? p := by
  induction l₁ with
  | nil => rfl
  | cons x xs ih =>
    have hall := List.find?_eq_none.mp h
    have hx : ¬ p x = true := hall x (List.mem_cons_self _ _)
    rw [List.cons_append, List.find?_cons_of_neg _ hx]
    exact ih (List.find?_eq_none.mpr (fun a ha => hall a (List.mem_cons_of_mem _ ha)))

/-- C1: a push whose file opens, whose primary upload succeeds and whose
version insert is against a fresh (templateID, version) pair completes, and
the TemplateVersion row it creates records hashHex of exactly the bytes
that were read from the file and streamed to the primary store — which are
exactly the input file bytes. -/
theorem push_hash_matches_primary_bytes (hashHex : Bytes → String)
    (lru : LRUState) (st : Storage) (tid : String) (ver : Int)
    (fileBytes : Bytes) (declaredSize : Int) (cacheFail : Option Nat)
    (hfresh : getTemplateVersion st tid ver = none) :
    (Service.pushJobRun hashHex lru st tid ver fileBytes declaredSize
      false none cacheFail).jobStatus = "completed" ∧
    (Service.pushJobRun hashHex lru st tid ver fileBytes declaredSize
      false none cacheFail).primaryStored = some fileBytes ∧
    ∃ row, getTemplateVersion (Service.pushJobRun hashHex lru st tid ver fileBytes
        declaredSize false none cacheFail).storage tid ver = some row ∧
      row.fileHash = hashHex fileBytes := by
  have hcreate : createTemplateVersion st
      { templateID := tid, versionNumber := ver, objectKey := getKey tid ver
        fileSize := declaredSize, fileHash := hashHex fileBytes }
      = Except.ok { st with versions := st.versions ++
          [{ templateID := tid, versionNumber := ver, objectKey := getKey tid ver
             fileSize := declaredSize, fileHash := hashHex fileBytes }] } := by
    unfold createTemplateVersion
    dsimp only
    rw [hfresh]
  have hrun : Service.pushJobRun hashHex lru st tid ver fileBytes declaredSize
      false none cacheFail
      = { storage := { st with versions := st.versions ++
            [{ templateID := tid, versionNumber := ver, objectKey := getKey tid ver
               fileSize := declaredSize, fileHash := hashHex fileBytes }] }
          jobStatus := "completed"
          primaryStored := some fileBytes
          lru := (cacheUploadRun lru (getKey tid ver) fileBytes cacheFail).lru } := by
    unfold Service.pushJobRun CacheClient.upload
    rw [if_neg Bool.false_ne_true]
    dsimp only
    rw [hcreate]
  rw [hrun]
  refine ⟨rfl, rfl,
    ⟨{ templateID := tid, versionNumber := ver, objectKey := getKey tid ver
       fileSize := declaredSize, fileHash := hashHex fileBytes }, ?_, rfl⟩⟩
  unfold getTemplateVersion at hfresh ⊢
  dsimp only
  rw [find?_append_of_none _ _ _ hfresh]
  simp [List.find?]

/-- Witness for C1 at a concrete input: empty store, two-byte file. -/
theorem push_hash_matches_primary_bytes_witness :
    getTemplateVersion { templates := [], versions := [], jobs := [] } "t1" 1 = none ∧
    ((Service.pushJobRun (fun _ => "feedface") (LRUState.init 10)
        { templates := [], versions := [], jobs := [] } "t1" 1 [104, 105] 2
        false none none).jobStatus = "completed" ∧
    (Service.pushJobRun (fun _ => "feedface") (LRUState.init 10)
        { templates := [], versions := [], jobs := [] } "t1" 1 [104, 105] 2
        false none none).primaryStored = some [104, 105] ∧
    ∃ row, getTemplateVersion (Service.pushJobRun (fun _ => "feedface")
        (LRUState.init 10) { templates := [], versions := [], jobs := [] } "t1" 1
        [104, 105] 2 false none none).storage "t1" 1 = some row ∧
      row.fileHash = (fun _ : Bytes => "feedface") [104, 105]) :=
  ⟨rfl, push_hash_matches_primary_bytes (fun _ => "feedface") (LRUState.init 10)
    { templates := [], versions := [], jobs := [] } "t1" 1 [104, 105] 2 none rfl⟩

/-- C6: a push for a (templateID, version) pair that already has a
TemplateVersion row fails in both Push variants with the stable error code
template_version.already_exists, and neither variant creates a new
TemplateVersion row (the transactional variant rolls everything back; the
job-first variant leaves only the Job row). -/
theorem push_duplicate_version_rejected (st : Storage) (tid : String) (ver : Int)
    (hdup : (getTemplateVersion st tid ver).isSome) :
    (Service.pushTx st tid ver).2 = Except.error (alreadyExistsError tid ver) ∧
    (Service.pushTx st tid ver).1 = st ∧
    (Service.pushDirectCheck st tid ver).2 = Except.error (alreadyExistsError tid ver) ∧
    (Service.pushDirectCheck st tid ver).1.versions = st.versions ∧
    (alreadyExistsError tid ver).code = "template_version.already_exists" := by
  obtain ⟨row, hrow⟩ := Option.isSome_iff_exists.mp hdup
  have htx : getTemplateVersion (ensureTemplate st tid) tid ver = some row := by
    rw [getTemplateVersion_ensure]
    exact hrow
  have hjobs : getTemplateVersion
      { st with jobs := st.jobs ++ [pendingJob tid ver] } tid ver = some row := hrow
  have hd : getTemplateVersion
      (ensureTemplate { st with jobs := st.jobs ++ [pendingJob tid ver] } tid) tid ver
      = some row := by
    rw [getTemplateVersion_ensure]
    exact hjobs
  refine ⟨?_, ?_, ?_, ?_, rfl⟩
  · unfold Service.pushTx
    dsimp only
    rw [htx]
  · unfold Service.pushTx
    dsimp only
    rw [htx]
  · unfold Service.pushDirectCheck
    dsimp only
    rw [hd]
  · unfold Service.pushDirectCheck
    dsimp only
    rw [hd]
    dsimp only
    rw [ensureTemplate_versions]

/-- Witness for C6 at a concrete input: a store already holding version 1
of template t1. -/
theorem push_duplicate_version_rejected_witness :
    ((getTemplateVersion
      { templates := ["t1"]
        versions := [{ templateID := "t1", versionNumber := 1
                       objectKey := "templates/t1/1", fileSize := 2
                       fileHash := "feedface" }]
        jobs := [] } "t1" 1).isSome) ∧
    (Service.pushTx
      { templates := ["t1"]
        versions := [{ templateID := "t1", versionNumber := 1
                       objectKey := "templates/t1/1", fileSize := 2
                       fileHash := "feedface" }]
        jobs := [] } "t1" 1).2 = Except.error (alreadyExistsError "t1" 1) :=
  ⟨by decide,
    (push_duplicate_version_rejected
      { templates := ["t1"]
        versions := [{ templateID := "t1", versionNumber := 1
                       objectKey := "templates/t1/1", fileSize := 2
                       fileHash := "feedface" }]
        jobs := [] } "t1" 1 (by decide)).1⟩

/-! ## Job queue worker (src/unnamed/part_005, NewService)

The worker is the single goroutine draining the jobs channel with the loop
body job() and no recover.  In Go an unrecovered panic in any goroutine
terminates the whole process, so a panicking task kills the worker and the
process; this is what the embedding encodes.  A task is modelled as a
function from storage to Except, error standing for a panic. -/

/-- Model of a queued task: Except.error means the task panics. -/
abbrev Task := Storage → Except String Storage

/-- Model of the worker loop in NewService (src/unnamed/part_005): pop each
task and run it, with no recover around the call.  Returns the final
storage, the number of tasks that completed, and whether the process
crashed on an unrecovered panic (in which case the remaining tasks are
never consumed and no job row is updated by the worker). -/
def runJobWorker (st : Storage) (done : Nat) : List Task → Storage × Nat × Bool
  | [] => (st, done, false)
  | t :: rest =>
    match t st with
    | Except.ok st2 => runJobWorker st2 (done + 1) rest
    | Except.error _ => (st, done, true)

/-- A task that panics immediately. -/
def panickingTask : Task := fun _ => Except.error "runtime panic"

/-- A task that completes and records a completed job row. -/
def completingTask : Task := fun st =>
  Except.ok { st with jobs := st.jobs ++
    [{ pendingJob "t2" 1 with status := "completed" }] }

/-- C9 (recording the code bug): running the worker on a panicking task
followed by a well-behaved task crashes the process on the panic: the
storage is untouched (in particular no job row is marked error), zero tasks
completed, and the subsequent task is never consumed — the worker does not
recover and continue as the claim requires. -/
theorem job_worker_panic_crashes :
    runJobWorker { templates := [], versions := [], jobs := [] } 0
      [panickingTask, completingTask]
      = ({ templates := [], versions := [], jobs := [] }, 0, true) := rfl
